import Mathlib

/-!
Verification of the ipa-multipoint JNI commitment bindings
(src/ipa-multipoint/ipa_multipoint_jni/src/lib.rs).

The file embeds the two exported functions, `commit` and
`update_commitment`, over an abstract scalar field `F` (the bandersnatch
scalar field `Fr`) and an abstract curve group `G` (`EdwardsProjective`),
with the byte codecs (`Fr::read`, `EdwardsProjective::read`, `write`) and
the seed-based generator derivation kept as parameters of a `JniEnv`
record: their internals live in external crates (ark-ff, bandersnatch,
rust-verkle) and are modelled from the specification. The control flow of
the two entry points - the arity check, the `as u16` index truncation, the
unwrap panics, the 256-slot delta vector - is translated from lib.rs.
-/

/-- Errors observable at the JNI boundary: `invalidInput` models the
`IllegalArgumentException` thrown on a wrong argument count, `rustPanic`
models a Rust `unwrap`/`expect` failure or an out-of-bounds slice index
(neither of which is a synchronously reported input-validation error). -/
inductive JniError where
  | invalidInput
  | rustPanic
deriving DecidableEq, Repr

/-- Heterogeneous elements of the `jobjectArray` passed to
`update_commitment`: a boxed Java integer or a byte array. -/
inductive JObj where
  | jint (v : Int)
  | jbytes (b : List Nat)
deriving DecidableEq, Repr

/-- The seed bytes of the constant `PEDERSEN_SEED = b"eth_verkle_oct_2021"`
from lib.rs, as ASCII values. -/
def PEDERSEN_SEED : List Nat :=
  [101, 116, 104, 95, 118, 101, 114, 107, 108, 101, 95, 111, 99, 116,
   95, 50, 48, 50, 49]

/-- External-crate operations used by lib.rs, kept abstract: `frRead`
models `Fr::read` (decoding a scalar from bytes, `none` on failure),
`pointRead` models `EdwardsProjective::read`, `pointWrite` models the
128-byte point encoding `write`, and `derive` models the try-and-increment
generator derivation used by `CRS::new`. Modelled from the spec: the spec
describes these as total/partial codec functions and a pure deterministic
derivation, and fixes no further structure the claims depend on. -/
structure JniEnv (F G : Type) where
  frRead : List Nat → Option F
  pointRead : List Nat → Option G
  pointWrite : G → List Nat
  derive : List Nat → Nat → G

/-- Generator set used by both entry points: derivation from the
hardcoded `PEDERSEN_SEED`, as in `CRS::new(256, PEDERSEN_SEED)`. -/
def JniEnv.gens {F G : Type} (env : JniEnv F G) : Nat → G :=
  env.derive PEDERSEN_SEED

/-- The ordered list of 256 generators built by `CRS::new(256, seed)`. -/
def CRS.new256 {G : Type} (g : Nat → G) : List G :=
  (List.range 256).map g

/-- Modelled from the spec: `CRS::commit_lagrange_poly` (external crate
ipa_multipoint) computes the multi-scalar multiplication
`C = Σ_i v_i * G_i` of the Lagrange-basis values against the 256
generators. The sum pairs values with generators positionally and stops at
the shorter sequence, which on vectors of length at most 256 is exactly
the sum over the first `length v` generators; the in-repo test commits
vectors of length 1 and 2 through this path. -/
def commitLagrange {F G : Type} [CommRing F] [AddCommGroup G] [Module F G]
    (g : Nat → G) (v : List F) : G :=
  (List.zipWith (fun s p => s • p) v (CRS.new256 g)).sum

/-- Decoding loop of `commit` in lib.rs: each element of the input array
is read with `Fr::read(...).unwrap()`, so the first undecodable buffer
panics. -/
def readScalars {F : Type} (fr : List Nat → Option F) :
    List (List Nat) → Except JniError (List F)
  | [] => .ok []
  | b :: rest =>
    match fr b with
    | none => .error .rustPanic
    | some s => (readScalars fr rest).map (fun v => s :: v)

/-- The exported `commit` entry point of lib.rs: decode every input buffer
to a scalar (panicking on failure), build the Lagrange-basis polynomial,
commit it against `CRS::new(256, PEDERSEN_SEED)` and return the encoded
point. There is no check on the number of input buffers. -/
def LibIpaMultipoint.commit {F G : Type} [CommRing F] [AddCommGroup G]
    [Module F G] (env : JniEnv F G) (input : List (List Nat)) :
    Except JniError (List Nat) :=
  match readScalars env.frRead input with
  | .error e => .error e
  | .ok vec => .ok (env.pointWrite (commitLagrange env.gens vec))

/-- Extraction of the boxed index in `update_commitment`: reading the
`value` field of a non-Integer object makes the `expect` panic. -/
def readIndexObj : JObj → Except JniError Int
  | .jint v => .ok v
  | .jbytes _ => .error .rustPanic

/-- Extraction of a scalar argument in `update_commitment`:
`convert_byte_array` on a non-array panics, and so does
`Fr::read(...).unwrap()` on an undecodable buffer. -/
def readFrArg {F : Type} (fr : List Nat → Option F) :
    JObj → Except JniError F
  | .jint _ => .error .rustPanic
  | .jbytes b =>
    match fr b with
    | none => .error .rustPanic
    | some s => .ok s

/-- Extraction of the old-commitment argument in `update_commitment`,
via `EdwardsProjective::read(...).unwrap()`. -/
def readPointArg {G : Type} (pr : List Nat → Option G) :
    JObj → Except JniError G
  | .jint _ => .error .rustPanic
  | .jbytes b =>
    match pr b with
    | none => .error .rustPanic
    | some p => .ok p

/-- Core computation of `update_commitment` in lib.rs: `delta = new - old`,
a 256-slot zero vector with `delta` written at `index`, committed through
`CRS::new(256, PEDERSEN_SEED)`, and added to the old commitment
(`new_commitment.add(&old_commitment)`). -/
def updateCommitmentCore {F G : Type} [CommRing F] [AddCommGroup G]
    [Module F G] (g : Nat → G) (index : Nat) (old nw : F)
    (oldCommitment : G) : G :=
  commitLagrange g ((List.replicate 256 (0 : F)).set index (nw - old))
    + oldCommitment

/-- The update formula as the spec states it:
`oldCommitment + (newValue - oldValue) * generators[index]`. Modelled from
the spec (section 4.3); lib.rs instead computes a full 256-term
multi-scalar commitment of the basis vector and adds it. -/
def updateSpecFormula {F G : Type} [CommRing F] [AddCommGroup G]
    [Module F G] (g : Nat → G) (index : Nat) (old nw : F)
    (oldCommitment : G) : G :=
  oldCommitment + (nw - old) • g index

/-- The exported `update_commitment` entry point of lib.rs. It throws
`IllegalArgumentException` (here `invalidInput`) when the argument array
does not have exactly 4 elements; otherwise it reads the boxed index and
truncates it with `as u16` (low 16 bits), decodes the old value, the new
value and the old commitment (each `unwrap` panicking on failure), and
writes `delta` into slot `index` of a 256-slot vector - an index whose low
16 bits are 256 or more makes that slice write panic. -/
def LibIpaMultipoint.updateCommitment {F G : Type} [CommRing F]
    [AddCommGroup G] [Module F G] (env : JniEnv F G) (input : List JObj) :
    Except JniError (List Nat) :=
  if input.length ≠ 4 then .error .invalidInput
  else
    match input with
    | a0 :: a1 :: a2 :: a3 :: _ =>
      (readIndexObj a0).bind fun idxVal =>
        let index : Nat := (idxVal.emod 65536).toNat
        (readFrArg env.frRead a1).bind fun old =>
        (readFrArg env.frRead a2).bind fun nw =>
        (readPointArg env.pointRead a3).bind fun oldCommitment =>
          if index < 256 then
            .ok (env.pointWrite
              (updateCommitmentCore env.gens index old nw oldCommitment))
          else .error .rustPanic
    | _ => .error .rustPanic

/-! ### List and sum lemmas -/

/-- Positional multi-scalar sum: zipping values against points and summing
equals a finite sum over the indices below the shorter length. -/
lemma zipWith_smul_sum {F G : Type} [CommRing F] [AddCommGroup G]
    [Module F G] :
    ∀ (v : List F) (ps : List G),
      (List.zipWith (fun s p => s • p) v ps).sum
        = ∑ j ∈ Finset.range (min v.length ps.length),
            v.getD j 0 • ps.getD j 0
  | [], ps => by simp
  | a :: v, [] => by simp
  | a :: v, p :: ps => by
    have ih := zipWith_smul_sum v ps
    simp only [List.zipWith_cons_cons, List.sum_cons, List.length_cons,
      Nat.succ_min_succ, ih]
    rw [Finset.sum_range_succ']
    simp [add_comm]

/-- Membership of the generator list: below index 256, `getD` on
`CRS.new256 g` returns the derived generator. -/
lemma CRS.new256_getD {G : Type} [AddCommGroup G] (g : Nat → G) (j : Nat)
    (hj : j < 256) : (CRS.new256 g).getD j 0 = g j := by
  simp [CRS.new256, List.getD_eq_getElem?_getD, List.getElem?_map,
    List.getElem?_range hj]

/-- Commitment of a short vector as an indexed sum over its length. -/
lemma commitLagrange_eq_sum {F G : Type} [CommRing F] [AddCommGroup G]
    [Module F G] (g : Nat → G) (v : List F) (hv : v.length ≤ 256) :
    commitLagrange g v = ∑ j ∈ Finset.range v.length, v.getD j 0 • g j := by
  rw [commitLagrange, zipWith_smul_sum]
  have hlen : (CRS.new256 g).length = 256 := by simp [CRS.new256]
  rw [hlen, Nat.min_eq_left hv]
  refine Finset.sum_congr rfl fun j hj => ?_
  rw [CRS.new256_getD g j (lt_of_lt_of_le (Finset.mem_range.mp hj) hv)]

/-- Reading a position of a list after `set`: the written value at the
written (in-bounds) position, the old value elsewhere. -/
lemma getD_set_list {α : Type} :
    ∀ (l : List α) (i j : Nat) (a d : α), i < l.length →
      (l.set i a).getD j d = if j = i then a else l.getD j d
  | [], i, j, a, d, h => by simp at h
  | x :: l, 0, 0, a, d, _ => by simp
  | x :: l, 0, j + 1, a, d, _ => by simp
  | x :: l, i + 1, 0, a, d, _ => by simp
  | x :: l, i + 1, j + 1, a, d, h => by
    have ih := getD_set_list l i j a d (by simpa using h)
    simpa using ih

/-- Reading any position of a replicated list returns the replicated
value. -/
lemma getD_replicate {α : Type} :
    ∀ (n j : Nat) (c : α), (List.replicate n c).getD j c = c
  | 0, _, _ => by simp
  | n + 1, 0, c => by simp
  | n + 1, j + 1, c => by
    rw [List.replicate_succ, List.getD_cons_succ]
    exact getD_replicate n j c

/-- Commitment of the one-hot delta vector built by `update_commitment`:
it collapses to a single scalar multiplication of the chosen generator. -/
lemma commitLagrange_oneHot {F G : Type} [CommRing F] [AddCommGroup G]
    [Module F G] (g : Nat → G) (i : Nat) (hi : i < 256) (d : F) :
    commitLagrange g ((List.replicate 256 (0 : F)).set i d) = d • g i := by
  have hlen : ((List.replicate 256 (0 : F)).set i d).length = 256 := by
    rw [List.length_set, List.length_replicate]
  rw [commitLagrange_eq_sum g _ (le_of_eq hlen), hlen]
  have hget : ∀ j : Nat,
      ((List.replicate 256 (0 : F)).set i d).getD j 0
        = if j = i then d else 0 := by
    intro j
    rw [getD_set_list _ i j d 0 (by rw [List.length_replicate]; exact hi)]
    rcases eq_or_ne j i with h | h
    · rw [if_pos h, if_pos h]
    · rw [if_neg h, if_neg h]
      exact getD_replicate 256 j 0
  calc (∑ j ∈ Finset.range 256,
          ((List.replicate 256 (0 : F)).set i d).getD j 0 • g j)
      = ∑ j ∈ Finset.range 256, (if j = i then d • g j else 0) := by
        refine Finset.sum_congr rfl fun j _ => ?_
        rw [hget j]
        rcases eq_or_ne j i with h | h
        · simp [h]
        · simp [h]
    _ = d • g i := by
        rw [Finset.sum_ite_eq' (Finset.range 256) i (fun j => d • g j)]
        simp [hi]

/-- Linearity of the commitment in one coordinate: committing a vector
with one replaced entry differs from the original commitment by
`(v2 - v[i])` times the corresponding generator. -/
lemma commitLagrange_set {F G : Type} [CommRing F] [AddCommGroup G]
    [Module F G] (g : Nat → G) (v : List F) (hv : v.length = 256)
    (i : Nat) (hi : i < 256) (v2 : F) :
    commitLagrange g (v.set i v2)
      = commitLagrange g v + (v2 - v.getD i 0) • g i := by
  have hlen : (v.set i v2).length = 256 := by simp [hv]
  rw [commitLagrange_eq_sum g _ (le_of_eq hlen), hlen,
    commitLagrange_eq_sum g v (le_of_eq hv), hv]
  have key : (∑ j ∈ Finset.range 256, (v.set i v2).getD j 0 • g j)
      - (∑ j ∈ Finset.range 256, v.getD j 0 • g j)
      = (v2 - v.getD i 0) • g i := by
    rw [← Finset.sum_sub_distrib]
    calc (∑ j ∈ Finset.range 256,
            ((v.set i v2).getD j 0 • g j - v.getD j 0 • g j))
        = ∑ j ∈ Finset.range 256,
            (if j = i then (v2 - v.getD i 0) • g j else 0) := by
          refine Finset.sum_congr rfl fun j _ => ?_
          rw [getD_set_list v i j v2 0 (hv ▸ hi)]
          rcases eq_or_ne j i with h | h
          · subst h
            simp [sub_smul]
          · simp [h]
      _ = (v2 - v.getD i 0) • g i := by
          rw [Finset.sum_ite_eq' (Finset.range 256) i]
          simp [hi]
  have := sub_eq_iff_eq_add.mp key
  rw [this, add_comm]

/-! ### Evaluation of update_commitment on well-formed arguments -/

/-- Evaluation of `update_commitment` on a 4-element array with decodable
buffers whose truncated index lands in range: it returns the encoding of
the old commitment plus delta times the generator at the truncated
index. -/
lemma updateCommitment_eval {F G : Type} [CommRing F] [AddCommGroup G]
    [Module F G] (env : JniEnv F G) (k : Int) (b1 b2 b3 : List Nat)
    (old nw : F) (C : G) (hlt : (k.emod 65536).toNat < 256)
    (h1 : env.frRead b1 = some old) (h2 : env.frRead b2 = some nw)
    (h3 : env.pointRead b3 = some C) :
    LibIpaMultipoint.updateCommitment env
        [JObj.jint k, JObj.jbytes b1, JObj.jbytes b2, JObj.jbytes b3]
      = Except.ok (env.pointWrite
          (C + (nw - old) • env.gens (k.emod 65536).toNat)) := by
  simp only [LibIpaMultipoint.updateCommitment]
  rw [if_neg (by simp)]
  simp only [readIndexObj, readFrArg, readPointArg, h1, h2, h3, Except.bind]
  rw [if_pos hlt]
  rw [updateCommitmentCore, commitLagrange_oneHot env.gens _ hlt, add_comm]

/-- Evaluation of `update_commitment` when the supplied index is already
in `[0, 256)`: the truncation is the identity there. -/
lemma updateCommitment_eval_inRange {F G : Type} [CommRing F]
    [AddCommGroup G] [Module F G] (env : JniEnv F G) (k : Int)
    (b1 b2 b3 : List Nat) (old nw : F) (C : G)
    (hk0 : 0 ≤ k) (hk : k < 256)
    (h1 : env.frRead b1 = some old) (h2 : env.frRead b2 = some nw)
    (h3 : env.pointRead b3 = some C) :
    LibIpaMultipoint.updateCommitment env
        [JObj.jint k, JObj.jbytes b1, JObj.jbytes b2, JObj.jbytes b3]
      = Except.ok (env.pointWrite (C + (nw - old) • env.gens k.toNat)) := by
  have hmod : k.emod 65536 = k := Int.emod_eq_of_lt hk0 (by omega)
  have h := updateCommitment_eval env k b1 b2 b3 old nw C
    (by rw [hmod]; omega) h1 h2 h3
  rw [hmod] at h
  exact h

/-- Length preservation of the decoding loop of `commit`. -/
lemma readScalars_ok_length {F : Type} (fr : List Nat → Option F) :
    ∀ (input : List (List Nat)) (v : List F),
      readScalars fr input = Except.ok v → v.length = input.length := by
  intro input
  induction input with
  | nil =>
    intro v h
    rw [readScalars] at h
    cases h
    rfl
  | cons b rest ih =>
    intro v h
    rw [readScalars] at h
    cases hfr : fr b with
    | none => rw [hfr] at h; cases h
    | some s =>
      rw [hfr] at h
      cases hrec : readScalars fr rest with
      | error e =>
        rw [hrec] at h
        simp only [Except.map] at h
        cases h
      | ok w =>
        rw [hrec] at h
        simp only [Except.map] at h
        cases h
        simp [ih w hrec]

/-! ### Concrete test environment for witnesses -/

/-- Injective test encoding of an integer as a pair of naturals. -/
def encInt (x : Int) : List Nat := [x.toNat, (-x).toNat]

/-- Decoder matching `encInt`; any other buffer shape fails. -/
def decInt : List Nat → Option Int
  | [a, b] => some ((a : Int) - (b : Int))
  | _ => none

/-- Concrete instantiation over the integers (scalars and points both
`Int`, generator `i + 1` at position `i`) used by the witnesses. -/
def envZ : JniEnv Int Int where
  frRead := decInt
  pointRead := decInt
  pointWrite := encInt
  derive := fun _ i => (i : Int) + 1

/-- Round trip of the test codec. -/
lemma decInt_encInt (x : Int) : decInt (encInt x) = some x := by
  simp only [encInt, decInt, Option.some.injEq]
  omega

/-- Round trip of the point codec of `envZ`. -/
lemma envZ_roundtrip : ∀ p : Int, envZ.pointRead (envZ.pointWrite p) = some p :=
  fun p => decInt_encInt p

/-! ### Claims -/

/-- C1: updating the commitment of a 256-scalar vector `v` at index `i`
with old value `v[i]` and replacement `v2` yields the same commitment as
committing directly to the vector that equals `v` everywhere except at
`i`, where it holds `v2`. -/
theorem update_matches_recommit {F G : Type} [CommRing F] [AddCommGroup G]
    [Module F G] (g : Nat → G) (v : List F) (hv : v.length = 256)
    (i : Nat) (hi : i < 256) (v2 : F) :
    updateCommitmentCore g i (v.getD i 0) v2 (commitLagrange g v)
      = commitLagrange g (v.set i v2) := by
  rw [updateCommitmentCore, commitLagrange_oneHot g i hi,
    commitLagrange_set g v hv i hi v2, add_comm]

/-- Witness for C1 at the all-zero vector, index 1 and new value 5. -/
theorem update_matches_recommit_witness :
    (List.replicate 256 (0 : Int)).length = 256 ∧ 1 < 256 ∧
      updateCommitmentCore envZ.gens 1
          ((List.replicate 256 (0 : Int)).getD 1 0) 5
          (commitLagrange envZ.gens (List.replicate 256 (0 : Int)))
        = commitLagrange envZ.gens ((List.replicate 256 (0 : Int)).set 1 5) :=
  ⟨by rw [List.length_replicate], by norm_num,
    update_matches_recommit envZ.gens (List.replicate 256 (0 : Int))
      (by rw [List.length_replicate]) 1 (by norm_num) 5⟩

/-- C2: for an in-range index and decodable buffers, `update_commitment`
returns the encoding of `C + (new - old) * generators[index]`, and the
256-term basis-vector commitment added to `C` by the implementation equals
the one-scalar-multiplication formula of the spec. -/
theorem update_refines_spec_formula {F G : Type} [CommRing F]
    [AddCommGroup G] [Module F G] (env : JniEnv F G) (k : Int)
    (b1 b2 b3 : List Nat) (old nw : F) (C : G)
    (hk0 : 0 ≤ k) (hk : k < 256)
    (h1 : env.frRead b1 = some old) (h2 : env.frRead b2 = some nw)
    (h3 : env.pointRead b3 = some C) :
    LibIpaMultipoint.updateCommitment env
        [JObj.jint k, JObj.jbytes b1, JObj.jbytes b2, JObj.jbytes b3]
      = Except.ok (env.pointWrite
          (updateSpecFormula env.gens k.toNat old nw C))
    ∧ updateCommitmentCore env.gens k.toNat old nw C
        = updateSpecFormula env.gens k.toNat old nw C := by
  have hlt : k.toNat < 256 := by omega
  constructor
  · rw [updateSpecFormula]
    exact updateCommitment_eval_inRange env k b1 b2 b3 old nw C hk0 hk
      h1 h2 h3
  · rw [updateCommitmentCore, updateSpecFormula,
      commitLagrange_oneHot env.gens k.toNat hlt, add_comm]

/-- Witness for C2 at index 3 with old value 5, new value 7 and old
commitment 2 in the integer environment. -/
theorem update_refines_spec_formula_witness :
    (0 : Int) ≤ 3 ∧ (3 : Int) < 256 ∧
    envZ.frRead [5, 0] = some 5 ∧ envZ.frRead [7, 0] = some 7 ∧
    envZ.pointRead [2, 0] = some 2 ∧
    (LibIpaMultipoint.updateCommitment envZ
        [JObj.jint 3, JObj.jbytes [5, 0], JObj.jbytes [7, 0],
         JObj.jbytes [2, 0]]
      = Except.ok (envZ.pointWrite
          (updateSpecFormula envZ.gens (3 : Int).toNat (5 : Int) 7 2))
    ∧ updateCommitmentCore envZ.gens (3 : Int).toNat (5 : Int) 7 2
        = updateSpecFormula envZ.gens (3 : Int).toNat (5 : Int) 7 2) :=
  ⟨by decide, by decide, by decide, by decide, by decide,
    update_refines_spec_formula envZ 3 [5, 0] [7, 0] [2, 0] 5 7 2
      (by decide) (by decide) (by decide) (by decide) (by decide)⟩

/-- C3: a no-op update (old value equals new value) at a valid index
returns the encoding of the old commitment unchanged. -/
theorem update_noop {F G : Type} [CommRing F] [AddCommGroup G] [Module F G]
    (env : JniEnv F G) (k : Int) (b1 b2 b3 : List Nat) (x : F) (C : G)
    (hk0 : 0 ≤ k) (hk : k < 256)
    (h1 : env.frRead b1 = some x) (h2 : env.frRead b2 = some x)
    (h3 : env.pointRead b3 = some C) :
    LibIpaMultipoint.updateCommitment env
        [JObj.jint k, JObj.jbytes b1, JObj.jbytes b2, JObj.jbytes b3]
      = Except.ok (env.pointWrite C) := by
  rw [updateCommitment_eval_inRange env k b1 b2 b3 x x C hk0 hk h1 h2 h3,
    sub_self, zero_smul, add_zero]

/-- Witness for C3 at index 2 with value 5 and old commitment 3. -/
theorem update_noop_witness :
    (0 : Int) ≤ 2 ∧ (2 : Int) < 256 ∧
    envZ.frRead [5, 0] = some 5 ∧ envZ.pointRead [3, 0] = some 3 ∧
    LibIpaMultipoint.updateCommitment envZ
        [JObj.jint 2, JObj.jbytes [5, 0], JObj.jbytes [5, 0],
         JObj.jbytes [3, 0]]
      = Except.ok (envZ.pointWrite 3) :=
  ⟨by decide, by decide, by decide, by decide,
    update_noop envZ 2 [5, 0] [5, 0] [3, 0] 5 3
      (by decide) (by decide) (by decide) (by decide) (by decide)⟩

/-- C4: against the claim that every index at or above 256 fails with an
InvalidInput error, the implementation truncates the index to its low 16
bits, so index 65536 is silently accepted and the update is applied at
position 0. -/
theorem update_index65536_silently_accepted {F G : Type} [CommRing F]
    [AddCommGroup G] [Module F G] (env : JniEnv F G)
    (b1 b2 b3 : List Nat) (old nw : F) (C : G)
    (h1 : env.frRead b1 = some old) (h2 : env.frRead b2 = some nw)
    (h3 : env.pointRead b3 = some C) :
    LibIpaMultipoint.updateCommitment env
        [JObj.jint 65536, JObj.jbytes b1, JObj.jbytes b2, JObj.jbytes b3]
      = Except.ok (env.pointWrite (C + (nw - old) • env.gens 0))
    ∧ LibIpaMultipoint.updateCommitment env
        [JObj.jint 65536, JObj.jbytes b1, JObj.jbytes b2, JObj.jbytes b3]
      ≠ Except.error JniError.invalidInput := by
  have hmod : ((65536 : Int).emod 65536).toNat = 0 := by decide
  have h := updateCommitment_eval env 65536 b1 b2 b3 old nw C
    (by decide) h1 h2 h3
  rw [hmod] at h
  refine ⟨h, ?_⟩
  rw [h]
  simp

/-- Witness for C4: concrete run at index 65536 in the integer
environment. -/
theorem update_index65536_silently_accepted_witness :
    envZ.frRead [5, 0] = some 5 ∧ envZ.frRead [7, 0] = some 7 ∧
    envZ.pointRead [2, 0] = some 2 ∧
    (LibIpaMultipoint.updateCommitment envZ
        [JObj.jint 65536, JObj.jbytes [5, 0], JObj.jbytes [7, 0],
         JObj.jbytes [2, 0]]
      = Except.ok (envZ.pointWrite (2 + ((7 : Int) - 5) • envZ.gens 0))
    ∧ LibIpaMultipoint.updateCommitment envZ
        [JObj.jint 65536, JObj.jbytes [5, 0], JObj.jbytes [7, 0],
         JObj.jbytes [2, 0]]
      ≠ Except.error JniError.invalidInput) :=
  ⟨by decide, by decide, by decide,
    update_index65536_silently_accepted envZ [5, 0] [7, 0] [2, 0] 5 7 2
      (by decide) (by decide) (by decide)⟩

/-- C5 counterexample: a decodable input of length 1 does not fail with
InvalidInput - `commit` silently accepts it and returns a commitment. -/
theorem commit_length_one_succeeds :
    LibIpaMultipoint.commit envZ [[7, 0]]
        = Except.ok (envZ.pointWrite (commitLagrange envZ.gens [(7 : Int)]))
    ∧ ([[7, 0]] : List (List Nat)).length ≠ 256 :=
  ⟨rfl, by decide⟩

/-- C5 amended: `commit` performs no length validation at all - for an
input sequence of any length whose buffers all decode, it succeeds and
returns the commitment of the decoded vector (paired positionally against
the 256 generators). -/
theorem commit_no_length_validation {F G : Type} [CommRing F]
    [AddCommGroup G] [Module F G] (env : JniEnv F G)
    (input : List (List Nat)) (v : List F)
    (h : readScalars env.frRead input = Except.ok v) :
    LibIpaMultipoint.commit env input
      = Except.ok (env.pointWrite (commitLagrange env.gens v)) := by
  simp only [LibIpaMultipoint.commit, h]

/-- Witness for the amended C5 at a length-2 input. -/
theorem commit_no_length_validation_witness :
    readScalars envZ.frRead [[3, 0], [4, 0]] = Except.ok [(3 : Int), 4] ∧
    LibIpaMultipoint.commit envZ [[3, 0], [4, 0]]
      = Except.ok (envZ.pointWrite (commitLagrange envZ.gens [(3 : Int), 4])) :=
  ⟨rfl, commit_no_length_validation envZ [[3, 0], [4, 0]] [3, 4] rfl⟩

/-- C6: `commit` is deterministic - equal input vectors yield identical
output bytes - and the generator list is a pure function of the fixed
hardcoded seed, every derivation from it giving the identical ordered
list. -/
theorem commit_deterministic {F G : Type} [CommRing F] [AddCommGroup G]
    [Module F G] (env : JniEnv F G) (input1 input2 : List (List Nat))
    (h : input1 = input2) :
    LibIpaMultipoint.commit env input1 = LibIpaMultipoint.commit env input2
    ∧ CRS.new256 (env.derive PEDERSEN_SEED)
        = CRS.new256 (env.derive PEDERSEN_SEED) :=
  ⟨by rw [h], rfl⟩

/-- Witness for C6 on a concrete equal pair of inputs. -/
theorem commit_deterministic_witness :
    ([[5, 0]] : List (List Nat)) = [[5, 0]] ∧
    (LibIpaMultipoint.commit envZ [[5, 0]]
        = LibIpaMultipoint.commit envZ [[5, 0]]
    ∧ CRS.new256 (envZ.derive PEDERSEN_SEED)
        = CRS.new256 (envZ.derive PEDERSEN_SEED)) :=
  ⟨rfl, commit_deterministic envZ [[5, 0]] [[5, 0]] rfl⟩

/-- C7: two updates at distinct in-range indices commute - feeding the
output bytes of the first call as the old commitment of the second gives
the same final bytes in either order. The hypothesis `hrt` is the
round-trip property of the point codec from the spec. -/
theorem updates_commute {F G : Type} [CommRing F] [AddCommGroup G]
    [Module F G] (env : JniEnv F G)
    (hrt : ∀ p : G, env.pointRead (env.pointWrite p) = some p)
    (i j : Int) (hij : i ≠ j) (hi0 : 0 ≤ i) (hi : i < 256)
    (hj0 : 0 ≤ j) (hj : j < 256)
    (bo1 bn1 bo2 bn2 bc : List Nat) (o1 n1 o2 n2 : F) (C : G)
    (h1 : env.frRead bo1 = some o1) (h2 : env.frRead bn1 = some n1)
    (h3 : env.frRead bo2 = some o2) (h4 : env.frRead bn2 = some n2)
    (hc : env.pointRead bc = some C) :
    (LibIpaMultipoint.updateCommitment env
        [JObj.jint i, JObj.jbytes bo1, JObj.jbytes bn1,
         JObj.jbytes bc]).bind
      (fun r => LibIpaMultipoint.updateCommitment env
        [JObj.jint j, JObj.jbytes bo2, JObj.jbytes bn2, JObj.jbytes r])
    = (LibIpaMultipoint.updateCommitment env
        [JObj.jint j, JObj.jbytes bo2, JObj.jbytes bn2,
         JObj.jbytes bc]).bind
      (fun r => LibIpaMultipoint.updateCommitment env
        [JObj.jint i, JObj.jbytes bo1, JObj.jbytes bn1, JObj.jbytes r]) := by
  rw [updateCommitment_eval_inRange env i bo1 bn1 bc o1 n1 C hi0 hi h1 h2 hc,
    updateCommitment_eval_inRange env j bo2 bn2 bc o2 n2 C hj0 hj h3 h4 hc]
  simp only [Except.bind]
  rw [updateCommitment_eval_inRange env j bo2 bn2 _ o2 n2 _ hj0 hj h3 h4
      (hrt _),
    updateCommitment_eval_inRange env i bo1 bn1 _ o1 n1 _ hi0 hi h1 h2
      (hrt _),
    add_right_comm]

/-- Witness for C7 with indices 1 and 2 in the integer environment. -/
theorem updates_commute_witness :
    (∀ p : Int, envZ.pointRead (envZ.pointWrite p) = some p) ∧
    (1 : Int) ≠ 2 ∧
    (LibIpaMultipoint.updateCommitment envZ
        [JObj.jint 1, JObj.jbytes [4, 0], JObj.jbytes [9, 0],
         JObj.jbytes [3, 0]]).bind
      (fun r => LibIpaMultipoint.updateCommitment envZ
        [JObj.jint 2, JObj.jbytes [1, 0], JObj.jbytes [6, 0], JObj.jbytes r])
    = (LibIpaMultipoint.updateCommitment envZ
        [JObj.jint 2, JObj.jbytes [1, 0], JObj.jbytes [6, 0],
         JObj.jbytes [3, 0]]).bind
      (fun r => LibIpaMultipoint.updateCommitment envZ
        [JObj.jint 1, JObj.jbytes [4, 0], JObj.jbytes [9, 0],
         JObj.jbytes r]) :=
  ⟨envZ_roundtrip, by decide,
    updates_commute envZ envZ_roundtrip 1 2 (by decide) (by decide)
      (by decide) (by decide) (by decide) [4, 0] [9, 0] [1, 0] [6, 0] [3, 0]
      (4 : Int) 9 1 6 (3 : Int) (by decide) (by decide) (by decide)
      (by decide) (by decide)⟩

/-- C8: an argument array without exactly 4 elements makes
`update_commitment` fail with InvalidInput, before any of the arguments is
decoded or any computation runs, and no commitment bytes are produced. -/
theorem update_arity_rejected {F G : Type} [CommRing F] [AddCommGroup G]
    [Module F G] (env : JniEnv F G) (input : List JObj)
    (h : input.length ≠ 4) :
    LibIpaMultipoint.updateCommitment env input
      = Except.error JniError.invalidInput := by
  simp only [LibIpaMultipoint.updateCommitment]
  rw [if_pos h]

/-- Witness for C8 at an empty argument array. -/
theorem update_arity_rejected_witness :
    ([] : List JObj).length ≠ 4 ∧
    LibIpaMultipoint.updateCommitment envZ []
      = Except.error JniError.invalidInput :=
  ⟨by decide, update_arity_rejected envZ [] (by decide)⟩

/-- C9: `update_commitment` uses only the low 16 bits of the supplied
index - it behaves identically on `k` and on `k mod 65536` for every
integer `k` and all argument shapes. -/
theorem update_index_low16 {F G : Type} [CommRing F] [AddCommGroup G]
    [Module F G] (env : JniEnv F G) (k : Int) (a1 a2 a3 : JObj) :
    LibIpaMultipoint.updateCommitment env [JObj.jint k, a1, a2, a3]
      = LibIpaMultipoint.updateCommitment env
          [JObj.jint (k.emod 65536), a1, a2, a3] := by
  have hmm : (k.emod 65536).emod 65536 = k.emod 65536 :=
    Int.emod_emod_of_dvd k dvd_rfl
  simp [LibIpaMultipoint.updateCommitment, readIndexObj, Except.bind, hmm]

/-- C10: for an input of at most 256 decodable buffers, `commit` succeeds
and returns the encoding of the sum over `i < n` of `v_i` times
`generators[i]`; at `n = 0` the sum is empty, so the empty input commits
to the group identity. -/
theorem commit_short_vector {F G : Type} [CommRing F] [AddCommGroup G]
    [Module F G] (env : JniEnv F G) (input : List (List Nat)) (v : List F)
    (h : readScalars env.frRead input = Except.ok v)
    (hn : input.length ≤ 256) :
    LibIpaMultipoint.commit env input
      = Except.ok (env.pointWrite
          (∑ jj ∈ Finset.range input.length, v.getD jj 0 • env.gens jj)) := by
  have hvlen : v.length = input.length :=
    readScalars_ok_length env.frRead input v h
  simp only [LibIpaMultipoint.commit, h]
  rw [commitLagrange_eq_sum env.gens v (by rw [hvlen]; exact hn), hvlen]

/-- Witness for C10 at a length-2 input. -/
theorem commit_short_vector_witness :
    readScalars envZ.frRead [[3, 0], [4, 0]] = Except.ok [(3 : Int), 4] ∧
    ([[3, 0], [4, 0]] : List (List Nat)).length ≤ 256 ∧
    LibIpaMultipoint.commit envZ [[3, 0], [4, 0]]
      = Except.ok (envZ.pointWrite
          (∑ jj ∈ Finset.range ([[3, 0], [4, 0]] : List (List Nat)).length,
            ([(3 : Int), 4]).getD jj 0 • envZ.gens jj)) :=
  ⟨rfl, by decide,
    commit_short_vector envZ [[3, 0], [4, 0]] [3, 4] rfl (by decide)⟩
